import Mathlib

/-!
# Payments backend: `backend/main.go`

A shallow embedding of the local payment handler `processLocalPayment` and of
the order identifier generator `generateOrderID`, followed by the properties
of the handler.

Modelling conventions

* Go strings are modelled as Lean strings.  Every string the handler inspects
  comes out of `encoding/json` (which only produces valid UTF-8) or is an ASCII
  literal, so emptiness and equality tests coincide with the byte-level ones.
* The process-wide `math/rand` source is an explicit state that is threaded
  through the code.
* The handler's actions on the `http.ResponseWriter`, and the call to
  `time.Sleep`, are recorded in order in a list of effects.
* A Go run-time panic is the result `none`.
-/

namespace Payments

/-! ## Data model -/

/-- PaymentRequest represents the payment data sent from the frontend
(`main.go`, lines 15-26).  A field that is absent from the JSON body is left at
its zero value, the empty string (or `0` for the amount). -/
structure PaymentRequest where
  Method : String
  Amount : Float
  UpiId : String
  AccountNum : String
  IfscCode : String
  AccountName : String
  CardNumber : String
  ExpiryDate : String
  NameOnCard : String

/-- PaymentResponse is the response sent back to the frontend
(`main.go`, lines 28-34).  Fields that a composite literal does not mention
hold their zero value. -/
structure PaymentResponse where
  Success : Bool := false
  OrderID : String := ""
  Message : String := ""
  ErrorMsg : String := ""
  deriving DecidableEq, Repr

/-! ## The random source -/

namespace rand

/-- State of the `math/rand` source: the unbounded stream `raw` of values it
is going to produce and the number `pos` of draws made so far.  Quantifying
over every `Source` quantifies over every outcome of the random source. -/
structure Source where
  raw : Nat → Nat
  pos : Nat

/-- The call `rand.Intn(n)`: it panics when `n ≤ 0`, and otherwise returns a
number of the half-open interval `[0, n)` and advances the source by one
draw.  Reducing the raw value modulo `n` loses no generality, since a stream
of values that already lie in `[0, n)` is left unchanged. -/
def Intn (src : Source) (n : Nat) : Option (Nat × Source) :=
  if n = 0 then none
  else some (src.raw src.pos % n, { src with pos := src.pos + 1 })

end rand

/-! ## Order identifiers -/

/-- The constant `chars` of `generateOrderID` (`main.go`, line 38). -/
def chars : String := "abcdefghijklmnopqrstuvwxyz0123456789"

/-- The expression `chars[idx]`: the byte at position `idx`, or a panic when
the index is out of range.  `chars` is ASCII, so bytes and characters
coincide. -/
def charsAt (idx : Nat) : Option Char :=
  chars.data.get? idx

/-- The loop `for i := range result { result[i] = chars[rand.Intn(len(chars))] }`
of `generateOrderID` (`main.go`, lines 40-42), run over the list of the
indices that are still to be visited. -/
def generateOrderID.loop : List Nat → List Char → rand.Source → Option (List Char × rand.Source)
  | [], result, src => some (result, src)
  | i :: rest, result, src =>
    match rand.Intn src chars.length with
    | none => none
    | some (idx, src') =>
      match charsAt idx with
      | none => none
      | some c =>
        if i < result.length then generateOrderID.loop rest (result.set i c) src'
        else none

/-- The function `generateOrderID` creates a random order ID (`main.go`, lines 36-44):
`make([]byte, 16)` is a slice of sixteen zero bytes, the loop visits the
indices `0, 1, ..., len(result) - 1` in order, and `string(result)` is the
string of the bytes written. -/
def generateOrderID (src : rand.Source) : Option (String × rand.Source) :=
  let result : List Char := List.replicate 16 (Char.ofNat 0)
  match generateOrderID.loop (List.range result.length) result src with
  | none => none
  | some (result', src') => some (String.mk result', src')

/-! ## The handler -/

/-- The constant `http.StatusOK`. -/
def StatusOK : Nat := 200

/-- The constant `http.StatusBadRequest`. -/
def StatusBadRequest : Nat := 400

/-- The constant `time.Millisecond`, a duration in nanoseconds. -/
def Millisecond : Nat := 1000000

/-- What the handler does to the outside world, one constructor per kind of
call: `w.Header().Set(key, value)`, `time.Sleep(d)`, `w.WriteHeader(status)`
and `json.NewEncoder(w).Encode(resp)`. -/
inductive Effect where
  | setHeader (key value : String)
  | sleep (d : Nat)
  | writeHeader (status : Nat)
  | encode (resp : PaymentResponse)
  deriving DecidableEq, Repr

/-- The `switch paymentReq.Method` of `processLocalPayment`
(`main.go`, lines 67-83): the value of the variable `validationError` once
the switch is over.  The variable starts as the empty string and a case
assigns to it only when its condition holds. -/
def validationError (paymentReq : PaymentRequest) : String :=
  if paymentReq.Method = "upi" then
    if paymentReq.UpiId = "" then "UPI ID is required" else ""
  else if paymentReq.Method = "bank" then
    if paymentReq.AccountNum = "" ∨ paymentReq.IfscCode = "" ∨ paymentReq.AccountName = "" then
      "All bank details are required"
    else ""
  else if paymentReq.Method = "card" then
    if paymentReq.CardNumber = "" ∨ paymentReq.ExpiryDate = "" ∨ paymentReq.NameOnCard = "" then
      "All card details are required"
    else ""
  else "Invalid payment method"

/-- The handler `processLocalPayment` handles local payment processing
(`main.go`, lines 46-104).

The arguments `paymentReq` and `err` are what
`json.NewDecoder(r.Body).Decode(&paymentReq)` leaves behind: the request
structure, which may be partly filled in even when decoding fails, and the
error, `none` standing for `nil`.  The result is the list of the effects in
the order in which they happen together with the final state of the random
source, or `none` when the handler panics. -/
def processLocalPayment (src : rand.Source) (paymentReq : PaymentRequest)
    (err : Option String) : Option (List Effect × rand.Source) :=
  let hdr : List Effect := [Effect.setHeader "Content-Type" "application/json"]
  match err with
  | some _ =>
    some (hdr ++ [Effect.writeHeader StatusBadRequest,
                  Effect.encode { Success := false, ErrorMsg := "Invalid request format" }], src)
  | none =>
    let slept : List Effect := hdr ++ [Effect.sleep (1500 * Millisecond)]
    if validationError paymentReq ≠ "" then
      some (slept ++ [Effect.writeHeader StatusBadRequest,
                      Effect.encode { Success := false, ErrorMsg := validationError paymentReq }], src)
    else
      match generateOrderID src with
      | none => none
      | some (orderID, src') =>
        some (slept ++ [Effect.writeHeader StatusOK,
                        Effect.encode { Success := true, OrderID := orderID,
                                        Message := "Payment successful via " ++ paymentReq.Method }], src')

/-! ## Observations on the effects of one invocation -/

/-- The statuses passed to `w.WriteHeader`, in the order of the calls. -/
def statusesWritten : List Effect → List Nat
  | [] => []
  | Effect.writeHeader status :: rest => status :: statusesWritten rest
  | _ :: rest => statusesWritten rest

/-- The responses passed to `json.NewEncoder(w).Encode`, in the order of the
calls. -/
def responsesWritten : List Effect → List PaymentResponse
  | [] => []
  | Effect.encode resp :: rest => resp :: responsesWritten rest
  | _ :: rest => responsesWritten rest

/-- An effect that writes a part of the HTTP response: the status line or the
body. -/
def Effect.isWrite : Effect → Bool
  | Effect.writeHeader _ => true
  | Effect.encode _ => true
  | _ => false

/-- Every effect of the trace that writes a part of the response has a sleep
step of 1500 ms somewhere before it. -/
def SleepBeforeEveryWrite (trace : List Effect) : Prop :=
  ∀ (before after : List Effect) (e : Effect),
    trace = before ++ e :: after → e.isWrite = true →
      Effect.sleep (1500 * Millisecond) ∈ before

/-! ## Vocabulary of the specification -/

/-- A request that the specification calls valid: the method is one of the
three known ones and each field that this method requires is non-empty. -/
def ValidRequest (r : PaymentRequest) : Prop :=
  (r.Method = "upi" ∧ r.UpiId ≠ "") ∨
  (r.Method = "bank" ∧ r.AccountNum ≠ "" ∧ r.IfscCode ≠ "" ∧ r.AccountName ≠ "") ∨
  (r.Method = "card" ∧ r.CardNumber ≠ "" ∧ r.ExpiryDate ≠ "" ∧ r.NameOnCard ≠ "")

instance (r : PaymentRequest) : Decidable (ValidRequest r) := by
  unfold ValidRequest
  infer_instance

/-- Two requests name the same method and agree on the fields which that
method requires; a method other than the three known ones requires none. -/
def AgreeOnSelected (r₁ r₂ : PaymentRequest) : Prop :=
  r₁.Method = r₂.Method ∧
  (r₁.Method = "upi" → r₁.UpiId = r₂.UpiId) ∧
  (r₁.Method = "bank" →
    r₁.AccountNum = r₂.AccountNum ∧ r₁.IfscCode = r₂.IfscCode ∧
      r₁.AccountName = r₂.AccountName) ∧
  (r₁.Method = "card" →
    r₁.CardNumber = r₂.CardNumber ∧ r₁.ExpiryDate = r₂.ExpiryDate ∧
      r₁.NameOnCard = r₂.NameOnCard)

instance (r₁ r₂ : PaymentRequest) : Decidable (AgreeOnSelected r₁ r₂) := by
  unfold AgreeOnSelected
  infer_instance

/-- A character of the class `[a-z0-9]`. -/
def isOrderIdChar (c : Char) : Bool :=
  ('a' ≤ c && c ≤ 'z') || ('0' ≤ c && c ≤ '9')

/-- The string matches `^[a-z0-9]{16}$`: exactly sixteen characters, each a
lowercase letter or a digit. -/
def matchesOrderIdPattern (s : String) : Bool :=
  s.length == 16 && s.data.all isOrderIdChar

/-- The character that `generateOrderID` writes for the raw value `v` of the
random source: the one at position `v % len(chars)` of `chars`. -/
def charOfDraw (v : Nat) : Char :=
  (charsAt (v % chars.length)).getD 'a'

/-- The effects of a handler run that ends with the given status and
response after the simulated delay. -/
def delayedReply (status : Nat) (resp : PaymentResponse) : List Effect :=
  [Effect.setHeader "Content-Type" "application/json", Effect.sleep (1500 * Millisecond),
   Effect.writeHeader status, Effect.encode resp]

/-- The effects of a handler run that ends with the given status and
response without any delay. -/
def immediateReply (status : Nat) (resp : PaymentResponse) : List Effect :=
  [Effect.setHeader "Content-Type" "application/json",
   Effect.writeHeader status, Effect.encode resp]

/-! ## The generator, operation by operation -/

/-- One checked operation of `generateOrderID`: the call `rand.Intn(n)`, the
read `chars[idx]` from a string of `len` bytes, and the write
`result[i] = ...` into a slice of `len` bytes. -/
inductive Step where
  | intn (n : Nat)
  | index (idx len : Nat)
  | write (i len : Nat)
  deriving DecidableEq, Repr

/-- The operation stays within its bounds, so that it does not panic: the
argument of `rand.Intn` is positive, an index is below the length. -/
def Step.inRange : Step → Bool
  | Step.intn n => decide (0 < n)
  | Step.index idx len => decide (idx < len)
  | Step.write i len => decide (i < len)

/-- The loop of `generateOrderID` (`main.go`, lines 40-42) once more, this
time keeping the list of the operations it attempts, in order, next to its
result.  An operation is listed before its bounds are checked, so the one
that panics is the last of the list. -/
def generateOrderID.loopLogged :
    List Nat → List Char → rand.Source → List Step × Option (List Char × rand.Source)
  | [], result, src => ([], some (result, src))
  | i :: rest, result, src =>
    match rand.Intn src chars.length with
    | none => ([Step.intn chars.length], none)
    | some (idx, src') =>
      match charsAt idx with
      | none => ([Step.intn chars.length, Step.index idx chars.length], none)
      | some c =>
        if i < result.length then
          let later := generateOrderID.loopLogged rest (result.set i c) src'
          (Step.intn chars.length :: Step.index idx chars.length ::
            Step.write i result.length :: later.1, later.2)
        else
          ([Step.intn chars.length, Step.index idx chars.length,
            Step.write i result.length], none)

/-- The function `generateOrderID` (`main.go`, lines 36-44) together with the
list of the operations it attempts. -/
def generateOrderID.logged (src : rand.Source) : List Step × Option (String × rand.Source) :=
  let result : List Char := List.replicate 16 (Char.ofNat 0)
  let run := generateOrderID.loopLogged (List.range result.length) result src
  match run.2 with
  | none => (run.1, none)
  | some (result', src') => (run.1, some (String.mk result', src'))

/-- The sixteen numbers `d 0, ..., d 15` that the successive calls
`rand.Intn(36)` return when the random source starts in the state `src`. -/
def drawsOf (src : rand.Source) : Fin 16 → Fin 36 :=
  fun i => ⟨src.raw (src.pos + i) % 36, Nat.mod_lt _ (by decide)⟩

/-- The string spelled by sixteen draws: its `i`-th character is the
`d i`-th character of `chars`. -/
def idOfDraws (d : Fin 16 → Fin 36) : String :=
  String.mk (List.ofFn fun i => chars.data.get ((d i).cast (by decide)))

/-! ## Sample inputs -/

/-- A random source whose raw values are `3, 10, 17, ...`, before any draw. -/
def sampleSource : rand.Source := ⟨fun i => 7 * i + 3, 0⟩

/-- The request with no field set at all. -/
def emptyRequest : PaymentRequest := ⟨"", 0, "", "", "", "", "", "", ""⟩

/-- The decoded body `{"method":"upi","upiId":"alice@bank","amount":100}`. -/
def upiExample : PaymentRequest :=
  { emptyRequest with Method := "upi", Amount := 100, UpiId := "alice@bank" }

/-- The decoded body `{"method":"card","amount":50}`. -/
def cardExample : PaymentRequest :=
  { emptyRequest with Method := "card", Amount := 50 }

/-- A request with every payment field filled in, the method being left
blank. -/
def filledRequest : PaymentRequest :=
  ⟨"", 250, "bob@bank", "000123456789", "HDFC0001234", "Bob Roy", "4111111111111111", "12/29",
    "Bob Roy"⟩

/-! ## The generator always returns -/

theorem chars_length : chars.length = 36 := by decide

theorem chars_all_orderIdChar : ∀ c ∈ chars.data, isOrderIdChar c = true := by decide

theorem charsAt_mod (v : Nat) : charsAt (v % chars.length) = some (charOfDraw v) := by
  have h : v % chars.length < chars.data.length := Nat.mod_lt _ (by decide)
  simp only [charOfDraw, charsAt, List.get?_eq_getElem?, List.getElem?_eq_getElem h,
    Option.getD_some]

theorem charOfDraw_mem (v : Nat) : charOfDraw v ∈ chars.data := by
  have h : v % chars.length < chars.data.length := Nat.mod_lt _ (by decide)
  have heq : charOfDraw v = chars.data.get ⟨v % chars.length, h⟩ := by
    simp only [charOfDraw, charsAt, List.get?_eq_getElem?, List.getElem?_eq_getElem h,
      Option.getD_some, List.get_eq_getElem]
  rw [heq]
  exact List.get_mem _ _ _

/-- Running the loop over the `n` indices that follow the part `done` already
written overwrites the next `n` cells with the characters of the next `n`
draws and leaves the remaining cells alone. -/
theorem loop_append (n : Nat) : ∀ (done todo : List Char) (src : rand.Source),
    n ≤ todo.length →
    generateOrderID.loop (List.range' done.length n) (done ++ todo) src
      = some (done ++ (List.range' src.pos n).map (fun p => charOfDraw (src.raw p))
                ++ todo.drop n,
              { raw := src.raw, pos := src.pos + n }) := by
  induction n with
  | zero => intro done todo src _; simp [generateOrderID.loop]
  | succ n ih =>
    intro done todo src hn
    cases todo with
    | nil => simp at hn
    | cons t ts =>
      have hlen : n ≤ ts.length := by simpa using hn
      have hstep := ih (done ++ [charOfDraw (src.raw src.pos)]) ts
        { raw := src.raw, pos := src.pos + 1 } hlen
      simp only [List.length_append, List.length_singleton, List.append_assoc,
        List.singleton_append] at hstep
      have hne : chars.length ≠ 0 := by decide
      simp only [List.range', generateOrderID.loop, rand.Intn, hne, if_false, charsAt_mod,
        List.length_append, List.length_cons, List.map_cons, List.drop_succ_cons]
      have hlt : done.length < done.length + (ts.length + 1) := by omega
      simp only [hlt, if_true]
      have hset : (done ++ t :: ts).set done.length (charOfDraw (src.raw src.pos))
          = done ++ charOfDraw (src.raw src.pos) :: ts := by
        simp
      rw [hset, hstep]
      simp [Nat.add_assoc, Nat.add_comm 1 n]

/-- The identifier is the string of the characters of the next sixteen draws,
and the source has advanced by sixteen draws. -/
theorem generateOrderID_eq (src : rand.Source) :
    generateOrderID src
      = some (String.mk ((List.range' src.pos 16).map (fun p => charOfDraw (src.raw p))),
              { raw := src.raw, pos := src.pos + 16 }) := by
  have h := loop_append 16 [] (List.replicate 16 (Char.ofNat 0)) src (by simp)
  simp only [List.length_nil, List.nil_append] at h
  simp only [generateOrderID, List.length_replicate, List.range_eq_range', h]
  simp

theorem generateOrderID_pattern (src : rand.Source) :
    ∃ orderID src', generateOrderID src = some (orderID, src') ∧
      matchesOrderIdPattern orderID = true := by
  refine ⟨_, _, generateOrderID_eq src, ?_⟩
  simp only [matchesOrderIdPattern, Bool.and_eq_true, beq_iff_eq, List.all_eq_true]
  refine ⟨by simp [String.length], ?_⟩
  intro c hc
  simp only [List.mem_map] at hc
  obtain ⟨p, _, rfl⟩ := hc
  exact chars_all_orderIdChar _ (charOfDraw_mem _)

/-! ## The validator -/

theorem validationError_eq_empty_iff (r : PaymentRequest) :
    validationError r = "" ↔ ValidRequest r := by
  unfold validationError ValidRequest
  by_cases h1 : r.Method = "upi"
  · by_cases hu : r.UpiId = "" <;> simp [h1, hu]
  · by_cases h2 : r.Method = "bank"
    · by_cases ha : r.AccountNum = "" <;> by_cases hb : r.IfscCode = "" <;>
        by_cases hc : r.AccountName = "" <;> simp [h2, ha, hb, hc]
    · by_cases h3 : r.Method = "card"
      · by_cases ha : r.CardNumber = "" <;> by_cases hb : r.ExpiryDate = "" <;>
          by_cases hc : r.NameOnCard = "" <;> simp [h3, ha, hb, hc]
      · simp [h1, h2, h3]

/-- What the handler does with a decoded request that fails validation. -/
theorem processLocalPayment_invalid (src : rand.Source) (r : PaymentRequest)
    (h : validationError r ≠ "") :
    processLocalPayment src r none
      = some (delayedReply StatusBadRequest { Success := false, ErrorMsg := validationError r },
              src) := by
  simp [processLocalPayment, delayedReply, h]

/-- What the handler does with a decoded request that passes validation. -/
theorem processLocalPayment_valid (src : rand.Source) (r : PaymentRequest)
    (h : validationError r = "") :
    ∃ orderID src', generateOrderID src = some (orderID, src') ∧
      matchesOrderIdPattern orderID = true ∧
      processLocalPayment src r none
        = some (delayedReply StatusOK
                  { Success := true, OrderID := orderID,
                    Message := "Payment successful via " ++ r.Method }, src') := by
  obtain ⟨orderID, src', hgen, hpat⟩ := generateOrderID_pattern src
  refine ⟨orderID, src', hgen, hpat, ?_⟩
  simp [processLocalPayment, delayedReply, h, hgen]

/-- What the handler does when the body does not decode. -/
theorem processLocalPayment_undecodable (src : rand.Source) (r : PaymentRequest) (e : String) :
    processLocalPayment src r (some e)
      = some (immediateReply StatusBadRequest
                { Success := false, ErrorMsg := "Invalid request format" }, src) := by
  simp [processLocalPayment, immediateReply]

theorem orderId_ne_empty (s : String) (h : matchesOrderIdPattern s = true) : s ≠ "" := by
  intro hs
  subst hs
  simp [matchesOrderIdPattern] at h

theorem validationError_congr (r₁ r₂ : PaymentRequest) (h : AgreeOnSelected r₁ r₂) :
    validationError r₁ = validationError r₂ := by
  obtain ⟨hm, hu, hb, hc⟩ := h
  unfold validationError
  rw [← hm]
  by_cases h1 : r₁.Method = "upi"
  · simp [h1, hu h1]
  · by_cases h2 : r₁.Method = "bank"
    · obtain ⟨ha, hi, hn⟩ := hb h2
      simp [h2, ha, hi, hn]
    · by_cases h3 : r₁.Method = "card"
      · obtain ⟨ha, hi, hn⟩ := hc h3
        simp [h3, ha, hi, hn]
      · simp [h1, h2, h3]

theorem validationError_ne_format (r : PaymentRequest) :
    validationError r ≠ "Invalid request format" := by
  unfold validationError
  split_ifs <;> decide

theorem sleepBeforeEveryWrite_delayedReply (status : Nat) (resp : PaymentResponse) :
    SleepBeforeEveryWrite (delayedReply status resp) := by
  intro before after e heq hw
  match before, heq with
  | [], heq =>
    simp only [delayedReply, List.nil_append, List.cons.injEq] at heq
    rw [← heq.1] at hw
    simp [Effect.isWrite] at hw
  | [_], heq =>
    simp only [delayedReply, List.cons_append, List.nil_append, List.cons.injEq] at heq
    rw [← heq.2.1] at hw
    simp [Effect.isWrite] at hw
  | _ :: b :: _, heq =>
    simp only [delayedReply, List.cons_append, List.cons.injEq] at heq
    rw [← heq.2.1]
    simp

/-! ## Properties of the handler -/

/-- C1: a valid decoded request, whatever the random source yields, is answered
with status 200 and a response with `success = true`, an `orderId` matching
`^[a-z0-9]{16}$` and the message "Payment successful via " followed by the
method; non-emptiness of the required fields is all that is asked. -/
theorem valid_request_succeeds (src : rand.Source) (r : PaymentRequest) (h : ValidRequest r) :
    ∃ orderID src',
      processLocalPayment src r none
        = some (delayedReply 200
                  { Success := true, OrderID := orderID,
                    Message := "Payment successful via " ++ r.Method, ErrorMsg := "" }, src') ∧
      matchesOrderIdPattern orderID = true := by
  obtain ⟨orderID, src', _, hpat, hrun⟩ :=
    processLocalPayment_valid src r ((validationError_eq_empty_iff r).mpr h)
  exact ⟨orderID, src', hrun, hpat⟩

theorem valid_request_succeeds_witness :
    ValidRequest upiExample ∧
    ∃ orderID src',
      processLocalPayment sampleSource upiExample none
        = some (delayedReply 200
                  { Success := true, OrderID := orderID,
                    Message := "Payment successful via " ++ upiExample.Method, ErrorMsg := "" },
                src') ∧
      matchesOrderIdPattern orderID = true :=
  ⟨by decide, valid_request_succeeds sampleSource upiExample (by decide)⟩

/-- C2: a decoded request with method "upi" and an empty `upiId` is answered
with the failure response whose error is "UPI ID is required", whatever its
other fields. -/
theorem upi_without_id_rejected (src : rand.Source) (r : PaymentRequest)
    (hm : r.Method = "upi") (hu : r.UpiId = "") :
    processLocalPayment src r none
      = some (delayedReply 400
                { Success := false, OrderID := "", Message := "",
                  ErrorMsg := "UPI ID is required" }, src) := by
  have hv : validationError r = "UPI ID is required" := by simp [validationError, hm, hu]
  have h := processLocalPayment_invalid src r (by rw [hv]; decide)
  rw [h, hv]
  rfl

theorem upi_without_id_rejected_witness :
    ({ filledRequest with Method := "upi", UpiId := "" } : PaymentRequest).Method = "upi" ∧
    ({ filledRequest with Method := "upi", UpiId := "" } : PaymentRequest).UpiId = "" ∧
    processLocalPayment sampleSource { filledRequest with Method := "upi", UpiId := "" } none
      = some (delayedReply 400
                { Success := false, OrderID := "", Message := "",
                  ErrorMsg := "UPI ID is required" }, sampleSource) :=
  ⟨rfl, rfl, upi_without_id_rejected sampleSource _ rfl rfl⟩

/-- C3: a decoded request with method "bank" in which at least one of
`accountNumber`, `ifscCode`, `accountName` is empty is answered with the
failure response whose single error is "All bank details are required". -/
theorem bank_missing_detail_rejected (src : rand.Source) (r : PaymentRequest)
    (hm : r.Method = "bank")
    (hf : r.AccountNum = "" ∨ r.IfscCode = "" ∨ r.AccountName = "") :
    processLocalPayment src r none
      = some (delayedReply 400
                { Success := false, OrderID := "", Message := "",
                  ErrorMsg := "All bank details are required" }, src) := by
  have hv : validationError r = "All bank details are required" := by
    simp [validationError, hm, hf]
  have h := processLocalPayment_invalid src r (by rw [hv]; decide)
  rw [h, hv]
  rfl

theorem bank_missing_detail_rejected_witness :
    ({ filledRequest with Method := "bank", IfscCode := "" } : PaymentRequest).Method = "bank" ∧
    (({ filledRequest with Method := "bank", IfscCode := "" } : PaymentRequest).AccountNum = "" ∨
     ({ filledRequest with Method := "bank", IfscCode := "" } : PaymentRequest).IfscCode = "" ∨
     ({ filledRequest with Method := "bank", IfscCode := "" } : PaymentRequest).AccountName = "") ∧
    processLocalPayment sampleSource { filledRequest with Method := "bank", IfscCode := "" } none
      = some (delayedReply 400
                { Success := false, OrderID := "", Message := "",
                  ErrorMsg := "All bank details are required" }, sampleSource) :=
  ⟨rfl, Or.inr (Or.inl rfl),
    bank_missing_detail_rejected sampleSource _ rfl (Or.inr (Or.inl rfl))⟩

/-- C4: a decoded request with method "card" in which at least one of
`cardNumber`, `expiryDate`, `nameOnCard` is empty is answered with the failure
response whose single error is "All card details are required"; the witness
is the request with method "card", amount 50 and no card field. -/
theorem card_missing_detail_rejected (src : rand.Source) (r : PaymentRequest)
    (hm : r.Method = "card")
    (hf : r.CardNumber = "" ∨ r.ExpiryDate = "" ∨ r.NameOnCard = "") :
    processLocalPayment src r none
      = some (delayedReply 400
                { Success := false, OrderID := "", Message := "",
                  ErrorMsg := "All card details are required" }, src) := by
  have hv : validationError r = "All card details are required" := by
    have h1 : ¬ ("card" = "upi") := by decide
    have h2 : ¬ ("card" = "bank") := by decide
    simp [validationError, hm, hf, h1, h2]
  have h := processLocalPayment_invalid src r (by rw [hv]; decide)
  rw [h, hv]
  rfl

theorem card_missing_detail_rejected_witness :
    cardExample.Method = "card" ∧
    (cardExample.CardNumber = "" ∨ cardExample.ExpiryDate = "" ∨ cardExample.NameOnCard = "") ∧
    processLocalPayment sampleSource cardExample none
      = some (delayedReply 400
                { Success := false, OrderID := "", Message := "",
                  ErrorMsg := "All card details are required" }, sampleSource) :=
  ⟨rfl, Or.inl rfl, card_missing_detail_rejected sampleSource cardExample rfl (Or.inl rfl)⟩

/-- C5: a decoded request whose method is not exactly "upi", "bank" or "card"
is answered with the failure response whose error is "Invalid payment
method", whatever its other fields. -/
theorem unknown_method_rejected (src : rand.Source) (r : PaymentRequest)
    (h1 : r.Method ≠ "upi") (h2 : r.Method ≠ "bank") (h3 : r.Method ≠ "card") :
    processLocalPayment src r none
      = some (delayedReply 400
                { Success := false, OrderID := "", Message := "",
                  ErrorMsg := "Invalid payment method" }, src) := by
  have hv : validationError r = "Invalid payment method" := by
    simp [validationError, h1, h2, h3]
  have h := processLocalPayment_invalid src r (by rw [hv]; decide)
  rw [h, hv]
  rfl

theorem unknown_method_rejected_witness :
    (({ filledRequest with Method := "UPI" } : PaymentRequest).Method ≠ "upi" ∧
     ({ filledRequest with Method := "UPI" } : PaymentRequest).Method ≠ "bank" ∧
     ({ filledRequest with Method := "UPI" } : PaymentRequest).Method ≠ "card") ∧
    processLocalPayment sampleSource { filledRequest with Method := "UPI" } none
      = some (delayedReply 400
                { Success := false, OrderID := "", Message := "",
                  ErrorMsg := "Invalid payment method" }, sampleSource) :=
  ⟨⟨by decide, by decide, by decide⟩,
    unknown_method_rejected sampleSource _ (by decide) (by decide) (by decide)⟩

/-- C6: every run of the handler writes exactly one response, and in it
`success = true` exactly when `orderId` is non-empty, exactly when `error` is
empty: one variant is populated, never both and never neither. -/
theorem exactly_one_variant (src : rand.Source) (r : PaymentRequest) (err : Option String) :
    ∃ trace src' resp,
      processLocalPayment src r err = some (trace, src') ∧
      responsesWritten trace = [resp] ∧
      (resp.Success = true ↔ resp.OrderID ≠ "") ∧
      (resp.OrderID ≠ "" ↔ resp.ErrorMsg = "") := by
  cases err with
  | some e =>
    refine ⟨_, _, _, processLocalPayment_undecodable src r e, rfl, ?_, ?_⟩ <;> simp
  | none =>
    by_cases hv : validationError r = ""
    · obtain ⟨orderID, src', _, hpat, hrun⟩ := processLocalPayment_valid src r hv
      have hne := orderId_ne_empty orderID hpat
      refine ⟨_, _, _, hrun, rfl, ?_, ?_⟩ <;> simp [hne]
    · refine ⟨_, _, _, processLocalPayment_invalid src r hv, rfl, ?_, ?_⟩ <;> simp [hv]

/-- C7: every run of the handler writes exactly one status; it is 200 exactly
when the response has `success = true` and 400 exactly when it has
`success = false`, and it is 200 exactly when the body decoded into a valid
request, so a body that does not decode and a request that fails validation
both get 400. -/
theorem status_follows_success (src : rand.Source) (r : PaymentRequest)
    (err : Option String) :
    ∃ trace src' status resp,
      processLocalPayment src r err = some (trace, src') ∧
      statusesWritten trace = [status] ∧
      responsesWritten trace = [resp] ∧
      (status = 200 ↔ resp.Success = true) ∧
      (status = 400 ↔ resp.Success = false) ∧
      (status = 200 ↔ err = none ∧ ValidRequest r) := by
  cases err with
  | some e =>
    refine ⟨_, _, _, _, processLocalPayment_undecodable src r e, rfl, rfl, ?_, ?_, ?_⟩ <;>
      simp [StatusBadRequest]
  | none =>
    by_cases hv : validationError r = ""
    · obtain ⟨orderID, src', _, _, hrun⟩ := processLocalPayment_valid src r hv
      have hvalid := (validationError_eq_empty_iff r).mp hv
      refine ⟨_, _, _, _, hrun, rfl, rfl, ?_, ?_, ?_⟩ <;> simp [StatusOK, hvalid]
    · have hvalid : ¬ ValidRequest r := fun h => hv ((validationError_eq_empty_iff r).mpr h)
      refine ⟨_, _, _, _, processLocalPayment_invalid src r hv, rfl, rfl, ?_, ?_, ?_⟩ <;>
        simp [StatusBadRequest, hvalid]

/-- C8: when the body does not decode, whatever the request structure holds
and whatever the decoding error is, the handler writes status 400 and the
failure response with error "Invalid request format", and that error is not
a message of the validator. -/
theorem undecodable_body_rejected (src : rand.Source) (r : PaymentRequest) (e : String) :
    processLocalPayment src r (some e)
      = some (immediateReply 400
                { Success := false, OrderID := "", Message := "",
                  ErrorMsg := "Invalid request format" }, src) ∧
    ∀ r' : PaymentRequest, validationError r' ≠ "Invalid request format" :=
  ⟨processLocalPayment_undecodable src r e, validationError_ne_format⟩

/-- C9: two requests that name the same method and agree on the fields
required by that method get, for the same state of the random source, the
same effects and leave the random source in the same state; the amount and
the fields of the other methods play no part. -/
theorem outcome_depends_on_selected_fields (src : rand.Source) (r₁ r₂ : PaymentRequest)
    (err : Option String) (h : AgreeOnSelected r₁ r₂) :
    processLocalPayment src r₁ err = processLocalPayment src r₂ err := by
  have hv := validationError_congr r₁ r₂ h
  have hm : r₁.Method = r₂.Method := h.1
  cases err with
  | some e => rfl
  | none => simp only [processLocalPayment, hv, hm]

theorem outcome_depends_on_selected_fields_witness :
    AgreeOnSelected upiExample { filledRequest with Method := "upi", Amount := -7,
                                                    UpiId := "alice@bank" } ∧
    processLocalPayment sampleSource upiExample none
      = processLocalPayment sampleSource
          { filledRequest with Method := "upi", Amount := -7, UpiId := "alice@bank" } none :=
  ⟨by decide, outcome_depends_on_selected_fields sampleSource _ _ none (by decide)⟩

/-- C10, as stated, fails: for a body that does not decode (here the empty
body, on which the decoder reports "EOF") the handler writes its response
without any sleep step before it. -/
theorem delay_unconditional_counterexample :
    ∃ trace src',
      processLocalPayment sampleSource emptyRequest (some "EOF") = some (trace, src') ∧
      ¬ SleepBeforeEveryWrite trace := by
  refine ⟨_, _, processLocalPayment_undecodable sampleSource emptyRequest "EOF", ?_⟩
  intro h
  have hmem := h [Effect.setHeader "Content-Type" "application/json"]
    [Effect.encode { Success := false, ErrorMsg := "Invalid request format" }]
    (Effect.writeHeader StatusBadRequest) rfl rfl
  simp at hmem

/-- C10, amended: for every body that decodes, whether the request then passes
validation or not, the handler sleeps for 1500 ms exactly once and does so
before it writes the status and the response; for a body that does not
decode, the response is written with no sleep step at all. -/
theorem delay_exactly_when_decoded (src : rand.Source) (r : PaymentRequest) :
    (∃ status resp src',
      processLocalPayment src r none = some (delayedReply status resp, src') ∧
      SleepBeforeEveryWrite (delayedReply status resp) ∧
      (delayedReply status resp).filter (fun e => e matches Effect.sleep _)
        = [Effect.sleep (1500 * Millisecond)]) ∧
    (∀ e : String, ∃ trace src',
      processLocalPayment src r (some e) = some (trace, src') ∧
      ∀ d : Nat, Effect.sleep d ∉ trace) := by
  constructor
  · by_cases hv : validationError r = ""
    · obtain ⟨orderID, src', _, _, hrun⟩ := processLocalPayment_valid src r hv
      exact ⟨_, _, _, hrun, sleepBeforeEveryWrite_delayedReply _ _, rfl⟩
    · exact ⟨_, _, _, processLocalPayment_invalid src r hv,
        sleepBeforeEveryWrite_delayedReply _ _, rfl⟩
  · intro e
    refine ⟨_, _, processLocalPayment_undecodable src r e, ?_⟩
    intro d hd
    simp [immediateReply] at hd

/-! ## The generator in terms of its draws -/

/-- Keeping the list of operations does not change what the loop returns. -/
theorem loopLogged_snd (is : List Nat) : ∀ (result : List Char) (src : rand.Source),
    (generateOrderID.loopLogged is result src).2 = generateOrderID.loop is result src := by
  induction is with
  | nil => intro result src; rfl
  | cons i rest ih =>
    intro result src
    simp only [generateOrderID.loopLogged, generateOrderID.loop]
    cases rand.Intn src chars.length with
    | none => rfl
    | some p =>
      obtain ⟨idx, src'⟩ := p
      simp only
      cases charsAt idx with
      | none => rfl
      | some c =>
        simp only
        split_ifs
        · exact ih _ _
        · rfl

theorem logged_snd (src : rand.Source) :
    (generateOrderID.logged src).2 = generateOrderID src := by
  simp only [generateOrderID.logged, generateOrderID, loopLogged_snd]
  cases generateOrderID.loop (List.range (List.replicate 16 (Char.ofNat 0)).length)
      (List.replicate 16 (Char.ofNat 0)) src <;> rfl

/-- The operations of `n` rounds of the loop, started after the part `done`
already written: a draw, a read and a write per round. -/
theorem loopLogged_fst (n : Nat) : ∀ (done todo : List Char) (src : rand.Source),
    n ≤ todo.length →
    (generateOrderID.loopLogged (List.range' done.length n) (done ++ todo) src).1
      = (List.range n).flatMap (fun k =>
          [Step.intn 36, Step.index (src.raw (src.pos + k) % 36) 36,
           Step.write (done.length + k) (done.length + todo.length)]) := by
  induction n with
  | zero => intro done todo src _; simp [generateOrderID.loopLogged]
  | succ n ih =>
    intro done todo src hn
    cases todo with
    | nil => simp at hn
    | cons t ts =>
      have hlen : n ≤ ts.length := by simpa using hn
      have hstep := ih (done ++ [charOfDraw (src.raw src.pos)]) ts
        { raw := src.raw, pos := src.pos + 1 } hlen
      simp only [List.length_append, List.length_singleton, List.append_assoc,
        List.singleton_append] at hstep
      have hne : chars.length ≠ 0 := by decide
      simp only [List.range', generateOrderID.loopLogged, rand.Intn, hne, if_false, charsAt_mod,
        List.length_append, List.length_cons]
      have hlt : done.length < done.length + (ts.length + 1) := by omega
      simp only [hlt, if_true]
      have hset : (done ++ t :: ts).set done.length (charOfDraw (src.raw src.pos))
          = done ++ charOfDraw (src.raw src.pos) :: ts := by
        simp
      rw [hset, hstep, List.range_succ_eq_map, List.flatMap_cons, List.flatMap_map]
      simp [chars_length, Nat.add_assoc, Nat.add_comm 1, Nat.add_left_comm]


theorem chars_nodup : chars.data.Nodup := by decide

theorem charOfDraw_eq_get (v : Nat) (h : v % 36 < chars.data.length) :
    charOfDraw v = chars.data.get ⟨v % 36, h⟩ := by
  have h36 : chars.length = 36 := chars_length
  simp only [charOfDraw, charsAt, h36, List.get?_eq_getElem?, List.getElem?_eq_getElem h,
    Option.getD_some, List.get_eq_getElem]

/-- The identifier is the one spelled by the sixteen draws. -/
theorem generateOrderID_eq_idOfDraws (src : rand.Source) :
    generateOrderID src
      = some (idOfDraws (drawsOf src), { raw := src.raw, pos := src.pos + 16 }) := by
  rw [generateOrderID_eq]
  congr 2
  unfold idOfDraws
  congr 1
  apply List.ext_getElem
  · simp
  · intro n h₁ h₂
    have hn : n < 16 := by simpa using h₁
    simp only [List.getElem_map, List.getElem_range', List.getElem_ofFn, drawsOf, Nat.one_mul]
    rw [charOfDraw_eq_get]
    rfl

theorem idOfDraws_length (d : Fin 16 → Fin 36) : (idOfDraws d).length = 16 := by
  show (List.ofFn _).length = 16
  exact List.length_ofFn _

theorem idOfDraws_get? (d : Fin 16 → Fin 36) (i : Fin 16) :
    (idOfDraws d).data.get? i = charsAt (d i) := by
  have hd : ((d i : Fin 36) : Nat) < chars.data.length := by
    have hlt := (d i).isLt
    have h36 : chars.data.length = 36 := chars_length
    omega
  simp only [idOfDraws, charsAt, List.get?_eq_getElem?]
  rw [List.getElem?_eq_getElem hd, List.getElem?_eq_getElem (by simp), List.getElem_ofFn]
  rfl

theorem idOfDraws_injective : Function.Injective idOfDraws := by
  intro d d' h
  unfold idOfDraws at h
  have hdata : (List.ofFn fun i => chars.data.get ((d i).cast (by decide)))
      = List.ofFn fun i => chars.data.get ((d' i).cast (by decide)) := by
    injection h
  have hl := List.ofFn_injective hdata
  funext i
  have hi := congrFun hl i
  have hc := (chars_nodup.get_inj_iff).mp hi
  exact Fin.cast_injective _ hc

theorem idOfDraws_matches (d : Fin 16 → Fin 36) : matchesOrderIdPattern (idOfDraws d) = true := by
  simp only [matchesOrderIdPattern, Bool.and_eq_true, beq_iff_eq, List.all_eq_true]
  refine ⟨idOfDraws_length d, ?_⟩
  intro c hc
  simp only [idOfDraws, List.mem_ofFn, Set.mem_range] at hc
  obtain ⟨i, rfl⟩ := hc
  exact chars_all_orderIdChar _ (List.get_mem _ _ _)

/-- Every lowercase letter and every digit occurs in `chars`. -/
theorem mem_chars_of_isOrderIdChar (c : Char) (h : isOrderIdChar c = true) : c ∈ chars.data := by
  have hc : Char.ofNat c.toNat = c := Char.ofNat_toNat c
  have hb : (97 ≤ c.toNat ∧ c.toNat ≤ 122) ∨ (48 ≤ c.toNat ∧ c.toNat ≤ 57) := by
    simp only [isOrderIdChar, Bool.or_eq_true, Bool.and_eq_true, decide_eq_true_eq] at h
    rcases h with ⟨h1, h2⟩ | ⟨h1, h2⟩
    · left; exact ⟨h1, h2⟩
    · right; exact ⟨h1, h2⟩
  rw [← hc]
  generalize c.toNat = n at hb
  rcases hb with ⟨h1, h2⟩ | ⟨h1, h2⟩ <;> interval_cases n <;> decide


theorem idOfDraws_surjective (s : String) (h : matchesOrderIdPattern s = true) :
    ∃ d, idOfDraws d = s := by
  simp only [matchesOrderIdPattern, Bool.and_eq_true, beq_iff_eq, List.all_eq_true] at h
  obtain ⟨hlen, hall⟩ := h
  have hlen' : s.data.length = 16 := hlen
  have hmem : ∀ i : Fin 16, s.data.get (i.cast hlen'.symm) ∈ chars.data :=
    fun i => mem_chars_of_isOrderIdChar _ (hall _ (List.get_mem _ _ _))
  have hidx : ∀ i : Fin 16, chars.data.indexOf (s.data.get (i.cast hlen'.symm)) < 36 := by
    intro i
    have hlt := List.indexOf_lt_length.mpr (hmem i)
    have h36 : chars.data.length = 36 := chars_length
    omega
  refine ⟨fun i => ⟨_, hidx i⟩, ?_⟩
  obtain ⟨l⟩ := s
  unfold idOfDraws
  congr 1
  apply List.ext_getElem
  · rw [List.length_ofFn]; exact hlen'.symm
  · intro n h₁ h₂
    rw [List.getElem_ofFn]
    simp only [Fin.cast_mk, List.get_eq_getElem]
    exact List.getElem_indexOf _

theorem drawsOf_surjective (d : Fin 16 → Fin 36) : ∃ src, drawsOf src = d := by
  refine ⟨⟨fun p => if h : p < 16 then d ⟨p, h⟩ else 0, 0⟩, ?_⟩
  funext i
  apply Fin.ext
  simp only [drawsOf, Nat.zero_add, i.isLt, dite_true, Fin.eta]
  exact Nat.mod_eq_of_lt (d i).isLt

/-- C11: `generateOrderID` returns the string spelled by the sixteen numbers
that its sixteen calls of `rand.Intn(36)` return, and every sequence of
sixteen numbers below 36 can be drawn.  That string has sixteen characters,
the `i`-th one being the `d i`-th character of `chars`, so it depends on no
other draw.  The 36 characters of `chars` are pairwise distinct, and a
string matches `^[a-z0-9]{16}$` exactly when it is spelled by one and only
one sequence of draws. -/
theorem orderId_bijective_in_draws :
    (∀ src : rand.Source,
      generateOrderID src
        = some (idOfDraws (drawsOf src), { raw := src.raw, pos := src.pos + 16 })) ∧
    (∀ (src : rand.Source) (i : Fin 16),
      rand.Intn { raw := src.raw, pos := src.pos + i } chars.length
        = some ((drawsOf src i : Nat), { raw := src.raw, pos := src.pos + i + 1 })) ∧
    (∀ d : Fin 16 → Fin 36, ∃ src, drawsOf src = d) ∧
    (∀ d : Fin 16 → Fin 36,
      (idOfDraws d).length = 16 ∧ ∀ i : Fin 16, (idOfDraws d).data.get? i = charsAt (d i)) ∧
    (∀ (d d' : Fin 16 → Fin 36) (i : Fin 16),
      d i = d' i → (idOfDraws d).data.get? i = (idOfDraws d').data.get? i) ∧
    (chars.data.length = 36 ∧ chars.data.Nodup) ∧
    (∀ s : String, matchesOrderIdPattern s = true ↔ ∃! d, idOfDraws d = s) := by
  refine ⟨generateOrderID_eq_idOfDraws, ?_, drawsOf_surjective,
    fun d => ⟨idOfDraws_length d, idOfDraws_get? d⟩, ?_, ⟨chars_length, chars_nodup⟩, ?_⟩
  · intro src i
    have hne : chars.length ≠ 0 := by decide
    simp [rand.Intn, drawsOf, chars_length]
  · intro d d' i h
    rw [idOfDraws_get?, idOfDraws_get?, h]
  · intro s
    constructor
    · intro h
      obtain ⟨d, hd⟩ := idOfDraws_surjective s h
      exact ⟨d, hd, fun d' hd' => idOfDraws_injective (hd'.trans hd.symm)⟩
    · rintro ⟨d, rfl, _⟩
      exact idOfDraws_matches d

/-- C12: `generateOrderID` returns a string of sixteen characters for every
state of the random source and never panics.  Its loop runs sixteen times,
for `i = 0, ..., 15`; each time it calls `rand.Intn(36)`, reads `chars` at
the number returned, which is below the length 36, and writes `result[i]`
with `i` below the length 16.  The random source obeys its contract: for a
positive `n` it returns a number below `n`. -/
theorem generateOrderID_never_panics (src : rand.Source) :
    (∃ orderID, generateOrderID src = some (orderID, { raw := src.raw, pos := src.pos + 16 }) ∧
      orderID.length = 16) ∧
    (generateOrderID.logged src).2 = generateOrderID src ∧
    (generateOrderID.logged src).1
      = (List.range 16).flatMap (fun i =>
          [Step.intn 36, Step.index (src.raw (src.pos + i) % 36) 36, Step.write i 16]) ∧
    (∀ s ∈ (generateOrderID.logged src).1, s.inRange = true) ∧
    ((generateOrderID.logged src).1.filter (fun s => s matches Step.intn _)).length = 16 ∧
    (∀ (s : rand.Source) (n : Nat), 0 < n →
      ∃ v s', rand.Intn s n = some (v, s') ∧ v < n) := by
  have hlog : (generateOrderID.logged src).1
      = (List.range 16).flatMap (fun i =>
          [Step.intn 36, Step.index (src.raw (src.pos + i) % 36) 36, Step.write i 16]) := by
    have h := loopLogged_fst 16 [] (List.replicate 16 (Char.ofNat 0)) src (by simp)
    simp only [List.length_nil, List.nil_append, List.length_replicate, Nat.zero_add] at h
    have hfst : (generateOrderID.logged src).1
        = (generateOrderID.loopLogged (List.range 16) (List.replicate 16 (Char.ofNat 0)) src).1 := by
      simp only [generateOrderID.logged, List.length_replicate]
      split <;> rfl
    rw [hfst]
    rw [List.range_eq_range'] at h ⊢
    exact h
  refine ⟨⟨_, generateOrderID_eq_idOfDraws src, idOfDraws_length _⟩, logged_snd src, hlog, ?_,
    ?_, ?_⟩
  · intro s hs
    rw [hlog] at hs
    simp only [List.mem_flatMap, List.mem_range, List.mem_cons, List.mem_singleton,
      List.not_mem_nil, or_false] at hs
    obtain ⟨i, hi, rfl | rfl | rfl⟩ := hs
    · rfl
    · simp only [Step.inRange, decide_eq_true_eq]
      exact Nat.mod_lt _ (by decide)
    · simp only [Step.inRange, decide_eq_true_eq]
      exact hi
  · rw [hlog]
    rfl
  · intro s n hn
    have hne : n ≠ 0 := by omega
    refine ⟨s.raw s.pos % n, { raw := s.raw, pos := s.pos + 1 }, ?_, Nat.mod_lt _ hn⟩
    simp only [rand.Intn, hne, if_false]

/-- C13: the handler leaves the random source untouched unless the body
decoded into a valid request.  On that success path it makes exactly sixteen
draws, those of the one call of `generateOrderID` whose identifier it sends;
on every failure path it makes none, and its effects are the same for every
state of the random source. -/
theorem draws_only_on_success (src : rand.Source) (r : PaymentRequest) (err : Option String) :
    ∃ trace src',
      processLocalPayment src r err = some (trace, src') ∧
      src'.raw = src.raw ∧
      src'.pos = src.pos + (if err = none ∧ ValidRequest r then 16 else 0) ∧
      (err = none ∧ ValidRequest r →
        ∃ orderID, generateOrderID src = some (orderID, src') ∧
          responsesWritten trace
            = [{ Success := true, OrderID := orderID,
                 Message := "Payment successful via " ++ r.Method, ErrorMsg := "" }]) ∧
      (¬ (err = none ∧ ValidRequest r) →
        src' = src ∧
        ∀ other : rand.Source, processLocalPayment other r err = some (trace, other)) := by
  cases err with
  | some e =>
    refine ⟨_, _, processLocalPayment_undecodable src r e, rfl, by simp, by simp, ?_⟩
    intro _
    exact ⟨rfl, fun other => processLocalPayment_undecodable other r e⟩
  | none =>
    by_cases hv : validationError r = ""
    · have hvalid := (validationError_eq_empty_iff r).mp hv
      have hgen := generateOrderID_eq_idOfDraws src
      have hrun : processLocalPayment src r none
          = some (delayedReply StatusOK
                    { Success := true, OrderID := idOfDraws (drawsOf src),
                      Message := "Payment successful via " ++ r.Method },
                  { raw := src.raw, pos := src.pos + 16 }) := by
        simp [processLocalPayment, delayedReply, hv, hgen]
      refine ⟨_, _, hrun, rfl, by simp [hvalid], ?_, ?_⟩
      · intro _
        exact ⟨_, hgen, rfl⟩
      · intro hn
        exact absurd ⟨rfl, hvalid⟩ hn
    · have hvalid : ¬ ValidRequest r := fun h => hv ((validationError_eq_empty_iff r).mpr h)
      refine ⟨_, _, processLocalPayment_invalid src r hv, rfl, by simp [hvalid], ?_, ?_⟩
      · intro h
        exact absurd h.2 hvalid
      · intro _
        exact ⟨rfl, fun other => processLocalPayment_invalid other r hv⟩

end Payments
